import Mathlib

/-!
Verification of the Civitai image-scraper (src/main.py) against its
natural-language specification.

The development shallowly embeds the claim-relevant parts of the program:

* Python string primitives (`str.strip`, `str.replace`, `in`, `str.split`,
  `str.join`, `str.startswith`, `str.lower`) are modelled as executable
  functions over `List Char`; all model ASCII text, which is the only text
  the claims exercise.
* `parse_count_text` (main.py lines 341-353) is modelled with Python's
  `float`/`int` restricted to plain decimal numerals (no exponents,
  underscore grouping, inf/nan); `float` is modelled with exact decimal
  arithmetic, which agrees with IEEE doubles on every input stated in a
  theorem below.  A result of `none` models an uncaught Python exception.
* `get_element_path` / `get_common_prefix` (lines 148-201) are modelled over
  a DOM tree with optional tag names (`none` models a nameless node such as
  a `NavigableString`; `some ""` models an empty-named `Tag`, which the bs4
  API permits constructing).  Node identity and `list.index` use bs4's
  structural `Tag.__eq__` (name and contents; attributes, which no claim
  touches, are not modelled).  Nodes are addressed by their child-index
  position from the root.
* `process_image_data` (lines 112-145) is modelled as a state transformer on
  the download-history map and a write log; the network `GET` outcome is an
  input and the `md5` digest function is a parameter.  Fetch operations are
  modelled as a sequence: each call runs to completion before the next one.
* The scroll-and-extract loop of `performCivitaiImageScrape`
  (lines 280-448) is modelled with the page contents and clock reading of
  each scroll iteration given as inputs.  A Python local variable that may
  be read before assignment is modelled as an `Option`, with the `none`
  read producing an `UnboundLocalError` value.
-/

/-! ## Python string primitives over ASCII text -/

/-- Characters stripped by Python's `str.strip()` (ASCII whitespace). -/
def pyIsSpace (c : Char) : Bool :=
  c = ' ' ∨ c = '\t' ∨ c = '\n' ∨ c = '\r' ∨ c = Char.ofNat 11 ∨ c = Char.ofNat 12

/-- Python `text.strip()`. -/
def pyStrip (s : String) : String :=
  String.mk (((s.toList.dropWhile pyIsSpace).reverse.dropWhile pyIsSpace).reverse)

/-- One fuel-indexed pass of `str.replace` (the fuel is an upper bound on the
    number of characters still to be scanned; callers supply enough). -/
def replaceFuel (pat rep : List Char) : ℕ → List Char → List Char
  | 0, cs => cs
  | _ + 1, [] => []
  | fuel + 1, c :: cs =>
    if pat.isPrefixOf (c :: cs) then rep ++ replaceFuel pat rep fuel ((c :: cs).drop pat.length)
    else c :: replaceFuel pat rep fuel cs

/-- Python `s.replace(pat, rep)` for a non-empty pattern (every caller in the
    source uses the one-character patterns `","`, `"K"`, `"M"`). -/
def pyReplace (s pat rep : String) : String :=
  if pat.toList.isEmpty then s
  else String.mk (replaceFuel pat.toList rep.toList (s.toList.length + 1) s.toList)

/-- Python `c in s` for a single character. -/
def pyContains (s : String) (c : Char) : Bool :=
  s.toList.contains c

/-- Python `s.startswith(pre)`. -/
def pyStartsWith (s pre : String) : Bool :=
  pre.toList.isPrefixOf s.toList

/-- Fuel-indexed worker for `str.split` with a non-empty separator. -/
def splitFuel (sep : List Char) : ℕ → List Char → List Char → List (List Char)
  | 0, cs, acc => [acc.reverse ++ cs]
  | _ + 1, [], acc => [acc.reverse]
  | fuel + 1, c :: cs, acc =>
    if sep.isPrefixOf (c :: cs) then
      acc.reverse :: splitFuel sep fuel ((c :: cs).drop sep.length) []
    else splitFuel sep fuel cs (c :: acc)

/-- Python `s.split(sep)` for a non-empty separator (the source splits on
    `"?"`, `"."` and `" > "`).  In particular `"".split(sep) = [""]`. -/
def pySplit (s sep : String) : List String :=
  (splitFuel sep.toList (s.toList.length + 1) s.toList []).map String.mk

/-- Python `sep.join(xs)`. -/
def pyJoin (sep : String) : List String → String
  | [] => ""
  | [x] => x
  | x :: y :: xs => x ++ sep ++ pyJoin sep (y :: xs)

/-- Python `s.lower()` (ASCII). -/
def pyLower (s : String) : String :=
  String.mk (s.toList.map Char.toLower)

/-! ## Python numerals (plain decimal forms) -/

/-- Numeric value of a run of decimal digits. -/
def digitsToNat (cs : List Char) : ℕ :=
  cs.foldl (fun a c => a * 10 + (c.toNat - 48)) 0

/-- Splits an optional leading sign off a numeral. -/
def pySignSplit (s : String) : Int × String :=
  if pyStartsWith s "-" then (-1, String.mk s.toList.tail)
  else if pyStartsWith s "+" then (1, String.mk s.toList.tail)
  else (1, s)

/-- Python `int(text)` restricted to an optional sign followed by a non-empty
    digit run (no underscore grouping, no surrounding whitespace — the source
    strips the text before the call). -/
def pyInt (s : String) : Option Int :=
  let sg := pySignSplit s
  if !sg.2.toList.isEmpty && sg.2.toList.all Char.isDigit then
    some (sg.1 * (digitsToNat sg.2.toList : ℤ))
  else none

/-- Python `float(text)` restricted to plain decimal numerals
    (`digits`, `digits.`, `.digits`, `digits.digits`, optionally signed).
    Returns `(n, k)` with exact value `n / 10 ^ k`; `none` models a
    `ValueError`.  Exponents, underscore grouping and `inf`/`nan` are outside
    the model, and the value is exact where IEEE doubles round — both
    differences are unexercised by every theorem below. -/
def pyFloatDecimal (s : String) : Option (Int × ℕ) :=
  let sg := pySignSplit s
  match pySplit sg.2 "." with
  | [ds] =>
    if !ds.toList.isEmpty && ds.toList.all Char.isDigit then
      some (sg.1 * (digitsToNat ds.toList : ℤ), 0)
    else none
  | [as, bs] =>
    if as.toList.all Char.isDigit && bs.toList.all Char.isDigit &&
        !(as.toList.isEmpty && bs.toList.isEmpty) then
      some (sg.1 * ((digitsToNat as.toList : ℤ) * (10 : ℤ) ^ bs.toList.length
              + (digitsToNat bs.toList : ℤ)), bs.toList.length)
    else none
  | _ => none

/-! ## The button count-text parser (main.py lines 341-353) -/

/-- `parse_count_text(text)`.  Mirrors the source: an empty text yields
    `"0"`; the text is stripped and commas removed; if a `'K'` occurs
    anywhere, every `'K'` is removed and the remainder is parsed with
    `float` and multiplied by 1000 (truncated toward zero by `int`),
    similarly `'M'` with 1000000 (`'K'` is tested first); otherwise the text
    is parsed with `int`, a failure yielding `"0"`.  The result is the
    decimal string `str(int(...))`.  A `none` result models the uncaught
    `ValueError` that `float` raises when a K/M-text's remainder is not a
    numeral (line 346/348 sit outside the `try` of line 349). -/
def parse_count_text (text : String) : Option String :=
  if text = "" then some "0"
  else
    let t := pyReplace (pyStrip text) "," ""
    if pyContains t 'K' then
      (pyFloatDecimal (pyReplace t "K" "")).map
        (fun v => toString (Int.tdiv (v.1 * 1000) ((10 : Int) ^ v.2)))
    else if pyContains t 'M' then
      (pyFloatDecimal (pyReplace t "M" "")).map
        (fun v => toString (Int.tdiv (v.1 * 1000000) ((10 : Int) ^ v.2)))
    else
      match pyInt t with
      | some n => some (toString n)
      | none => some "0"

/-! ## Longest common path prefix (main.py lines 179-201) -/

/-- The position-by-position loop of `get_common_prefix` (lines 191-200),
    phrased as structural recursion on the first split path: a token is
    kept while every other split path also still has that same token at the
    current position (the source loop runs to the minimum length and stops
    at the first position where the token set is not a singleton, which is
    exactly when some path is exhausted or disagrees). -/
def commonPrefixLoop : List String → List (List String) → List String
  | [], _ => []
  | a :: p, rest =>
    if rest.all (fun q => !q.isEmpty && q.headD "" == a) then
      a :: commonPrefixLoop p (rest.map List.tail)
    else []

/-- Line 187: `[p[0].split(" > ") for p in paths if p and p[0]]` — the
    non-empty inner lists whose first entry is a non-empty string, that
    entry split on `" > "`. -/
def splitPathsOf (paths : List (List String)) : List (List String) :=
  (paths.filter (fun p => !p.isEmpty && !(p.headD "").isEmpty)).map
    (fun p => pySplit (p.headD "") " > ")

/-- The token list `prefix` built by `get_common_prefix`'s loop. -/
def get_common_prefix_tokens (paths : List (List String)) : List String :=
  match splitPathsOf paths with
  | [] => []
  | p :: rest => commonPrefixLoop p rest

/-- `get_common_prefix(paths)` (lines 179-201); `paths` is a list of
    singleton lists `[path_string]`, as every caller builds it.  Empty
    input, and input whose every entry is filtered out at line 187, yield
    `""` (lines 184-189); otherwise the common tokens joined with `" > "`. -/
def get_common_prefix (paths : List (List String)) : String :=
  if paths.isEmpty then ""
  else pyJoin " > " (get_common_prefix_tokens paths)

/-! ## DOM model and `get_element_path` (main.py lines 148-177) -/

/-- A parsed DOM node: an optional tag name (`none` for nameless nodes such
    as `NavigableString`; bs4 also permits constructing a `Tag` whose name
    is `""`) and the list of children.  Attributes, which no claim touches,
    are not modelled, so bs4's structural `Tag.__eq__` (same name, same
    contents, recursively) becomes `Dom.beq`.  Nodes are addressed by their
    child-index position from a root. -/
inductive Dom where
  | node (name : Option String) (children : List Dom)

mutual
/-- bs4 structural equality `Tag.__eq__`: same name and equal contents. -/
def Dom.beq : Dom → Dom → Bool
  | .node n₁ c₁, .node n₂ c₂ => n₁ == n₂ && Dom.beqChildren c₁ c₂
/-- Pointwise `Dom.beq` on child lists. -/
def Dom.beqChildren : List Dom → List Dom → Bool
  | [], [] => true
  | a :: as, b :: bs => Dom.beq a b && Dom.beqChildren as bs
  | _, _ => false
end

instance : BEq Dom := ⟨Dom.beq⟩

/-- The node's tag name (`Tag.name`). -/
def Dom.name : Dom → Option String
  | .node n _ => n

/-- The node's children (`Tag.contents`). -/
def Dom.children : Dom → List Dom
  | .node _ c => c

/-- Python falsiness of a tag name (`None` or `""`) — line 161's
    `if not tag`. -/
def nameFalsy (n : Option String) : Bool :=
  n.getD "" == ""

/-- The node of `d` at child-index position `p`, when the position is
    valid. -/
def subtreeAt : Dom → List ℕ → Option Dom
  | d, [] => some d
  | d, i :: p =>
    match d.children[i]? with
    | some c => subtreeAt c p
    | none => none

/-- The token lines 167-175 push for the node `cur` whose parent is
    `parent`: the tag name, suffixed with the 1-based index among the
    parent's same-named children (`find_all(tag, recursive=False)`) when
    there is more than one; `siblings.index(current)` compares with bs4
    structural equality, and a failed lookup keeps the bare tag
    (the `except ValueError: pass` of lines 173-174). -/
def siblingToken (parent cur : Dom) (tag : String) : String :=
  let siblings := parent.children.filter (fun c => c.name == some tag)
  if siblings.length > 1 then
    match siblings.findIdx? (fun c => Dom.beq c cur) with
    | some idx => tag ++ "(" ++ toString (idx + 1) ++ ")"
    | none => tag
  else tag

/-- The while-loop of `get_element_path` (lines 159-176), processed from
    the node upward; the argument is the reversed position of the current
    node.  Each level contributes its token after all levels above it
    (`path.insert(0, tag)`), and a level at which the loop exits —
    `current == ancestor` (line 159), falsy tag (line 161), or no parent,
    which is exactly the root position (line 165) — contributes nothing and
    cuts off every level above it, while tokens already pushed by deeper
    levels are kept (the `break` returns the partial path). -/
def pathTokensAux (root ancSub : Dom) : List ℕ → List String
  | [] => []
  | i :: rp =>
    match subtreeAt root ((i :: rp).reverse) with
    | none => []
    | some cur =>
      if Dom.beq cur ancSub then []
      else if nameFalsy cur.name then []
      else
        match subtreeAt root rp.reverse with
        | none => []
        | some parent =>
          match cur.name with
          | none => []
          | some tag => pathTokensAux root ancSub rp ++ [siblingToken parent cur tag]

/-- `get_element_path(element, ancestor)` (lines 148-177) as its token
    list.  `none` positions model absent (`None`) arguments, and an invalid
    position is likewise treated as absent; line 156 returns `""` when the
    element has no `name` attribute. -/
def get_element_path_tokens (root : Dom) (element ancestor : Option (List ℕ)) :
    List String :=
  match element, ancestor with
  | some ep, some ap =>
    match subtreeAt root ep, subtreeAt root ap with
    | some el, some ancSub =>
      if el.name.isNone then [] else pathTokensAux root ancSub ep.reverse
    | _, _ => []
  | _, _ => []

/-- `get_element_path` — the token list joined with `" > "` (line 177). -/
def get_element_path (root : Dom) (element ancestor : Option (List ℕ)) : String :=
  pyJoin " > " (get_element_path_tokens root element ancestor)

mutual
/-- Number of nodes of a DOM tree (a measure used only in proofs: a node is
    never structurally equal to one of its proper descendants). -/
def Dom.size : Dom → ℕ
  | .node _ c => 1 + Dom.sizeChildren c
/-- Total size of a list of DOM trees. -/
def Dom.sizeChildren : List Dom → ℕ
  | [] => 0
  | a :: as => Dom.size a + Dom.sizeChildren as
end

/-! ## The image fetcher (main.py lines 112-145) -/

/-- Downloaded payloads are byte sequences. -/
abbrev ByteSeq := List ℕ

/-- One call to `process_image_data`: the URL and the network outcome for it
    (`none` models any `aiohttp`/HTTP-status exception, which line 141
    catches; otherwise the downloaded response bytes). -/
structure FetchInput where
  url : String
  response : Option ByteSeq
deriving Repr, DecidableEq

/-- The pair `process_image_data` returns: local path and content digest. -/
structure FetchResult where
  path : Option String
  digest : Option String
deriving Repr, DecidableEq

/-- Fetcher state: the `download_history` digest→path map (insertion
    ordered) plus a log of the file writes (digest, path) performed — the
    disk effect of lines 136-137. -/
structure FetchState where
  history : List (String × String)
  writeLog : List (String × String)
deriving Repr, DecidableEq

/-- Dict lookup `download_history[d]` (also deciding `d in download_history`). -/
def histLookup (h : List (String × String)) (d : String) : Option String :=
  (h.find? (fun e => e.1 == d)).map (fun e => e.2)

/-- Lines 120-123: the file extension — the text after the last `"."` of
    the part before the first `"?"`, lower-cased; `"jpg"` when empty,
    longer than 5 characters, or not purely alphabetic. -/
def deriveExtension (url : String) : String :=
  let url_without_query := (pySplit url "?").headD ""
  let ext := pyLower ((pySplit url_without_query ".").getLastD "")
  if ext == "" || ext.toList.length > 5 || !ext.toList.all Char.isAlpha then "jpg"
  else ext

/-- `process_image_data(image_url, base_folder_path)` (lines 112-145) as a
    state transformer, the digest function `md5` a parameter.  Empty or
    non-`http` URLs and failed downloads return `(None, None)` and leave
    the state unchanged.  A digest already in history returns the recorded
    path without writing (lines 130-133); otherwise the file
    `base/"{md5}.{ext}"` is written and the new mapping recorded
    (lines 134-140). -/
def process_image_data (md5 : ByteSeq → String) (inp : FetchInput) (base : String)
    (st : FetchState) : FetchResult × FetchState :=
  if inp.url == "" then (⟨none, none⟩, st)
  else if !pyStartsWith inp.url "http" then (⟨none, none⟩, st)
  else
    match inp.response with
    | none => (⟨none, none⟩, st)
    | some bytes =>
      let d := md5 bytes
      match histLookup st.history d with
      | some existing => (⟨some existing, some d⟩, st)
      | none =>
        let filename := base ++ "/" ++ d ++ "." ++ deriveExtension inp.url
        (⟨some filename, some d⟩,
          { history := st.history ++ [(d, filename)],
            writeLog := st.writeLog ++ [(d, filename)] })

/-- A run's fetch calls in sequence: each `process_image_data` call runs to
    completion before the next begins. -/
def runFetches (md5 : ByteSeq → String) (inps : List FetchInput) (base : String)
    (st : FetchState) : List FetchResult × FetchState :=
  match inps with
  | [] => ([], st)
  | i :: rest =>
    let r := process_image_data md5 i base st
    let rs := runFetches md5 rest base r.2
    (r.1 :: rs.1, rs.2)

/-- Number of file writes for digest `d` recorded in a write log. -/
def writesFor (d : String) (log : List (String × String)) : ℕ :=
  (log.filter (fun e => e.1 == d)).length

/-! ## The scroll-and-extract loop (main.py lines 280-448) -/

/-- One candidate "image-comment" unit as the extraction sees it: the `src`
    of `unit.find("img")` (`none` when there is no img or no `src`
    attribute — both are skipped), the `href` of the surrounding `<a>`
    (`none` = no such ancestor, `some none` = an `<a>` without `href`), and
    the network outcome for the thumbnail download. -/
structure CardUnit where
  imgSrc : Option String
  parentHref : Option (Option String)
  response : Option ByteSeq
deriving Repr, DecidableEq

/-- The fields of a scraped record that a claim touches (thumbnail URL,
    detail-page URL, local thumbnail path); capture time, the five counts
    and the keyword are claim-irrelevant and omitted. -/
structure RecordEntry where
  thumbnailURL : String
  originalPageURL : String
  localPath : Option String
deriving Repr, DecidableEq

/-- Extraction state: the `processed_image_detail_urls` seen-set
    (line 259), the shared result collection, and the fetcher state. -/
structure ScrapeState where
  processed : List String
  results : List RecordEntry
  fetch : FetchState
deriving Repr, DecidableEq

/-- Uncaught Python exceptions the modelled loop can raise. -/
inductive RunError where
  /-- Line 321 evaluates `thumbnail_url + "|" + None` when the surrounding
      `<a>` has no `href` attribute (`parent_a.get("href")` is `None`). -/
  | typeErrorNoneHref
  /-- Line 440 reads `no_new_images_count`, a local that is assigned only
      at line 447, before it was ever assigned. -/
  | unboundLocalNoNewImages
deriving Repr, DecidableEq

/-- Lines 306-434 for a single unit: units without a usable `http` thumbnail
    are skipped; a relative detail link is prefixed with
    `https://civitai.com`; dedup on the key
    `thumbnail_url + "|" + original_page_url` against the seen-set
    (lines 321-324); for a fresh key the key is added, the thumbnail is
    downloaded through `process_image_data`, and the record is appended.
    The flag reports whether the unit counted as newly processed
    (line 325). -/
def processUnit (md5 : ByteSeq → String) (base : String) (u : CardUnit)
    (st : ScrapeState) : Except RunError (ScrapeState × Bool) :=
  match u.imgSrc with
  | none => .ok (st, false)
  | some src =>
    if src == "" || !pyStartsWith src "http" then .ok (st, false)
    else
      match u.parentHref with
      | some none => .error .typeErrorNoneHref
      | href =>
        let rawHref := match href with
          | none => ""
          | some none => ""
          | some (some h) => h
        let original :=
          if rawHref != "" && !pyStartsWith rawHref "http" then
            "https://civitai.com" ++ rawHref
          else rawHref
        let key := src ++ "|" ++ original
        if st.processed.contains key then .ok (st, false)
        else
          let st₁ : ScrapeState := { st with processed := key :: st.processed }
          let f := process_image_data md5 ⟨src, u.response⟩ base st₁.fetch
          .ok ({ st₁ with
                 results := st₁.results ++ [⟨src, original, f.1.path⟩],
                 fetch := f.2 }, true)

/-- The per-iteration `for unit in image_comment_units` loop, threading the
    `newly_processed_this_scroll` counter. -/
def processUnits (md5 : ByteSeq → String) (base : String) :
    List CardUnit → ScrapeState → ℕ → Except RunError (ScrapeState × ℕ)
  | [], st, n => .ok (st, n)
  | u :: us, st, n =>
    match processUnit md5 base u st with
    | .error e => .error e
    | .ok (st', b) => processUnits md5 base us st' (if b then n + 1 else n)

/-- The dedup key a unit contributes when it is processed at all (mirrors
    the skip conditions of `processUnit`; the `some none` href case raises
    instead and contributes nothing). -/
def unitKey (u : CardUnit) : Option String :=
  match u.imgSrc with
  | none => none
  | some src =>
    if src == "" || !pyStartsWith src "http" then none
    else
      match u.parentHref with
      | some none => none
      | none =>
        some (src ++ "|" ++
          (if "" != "" && !pyStartsWith "" "http" then "https://civitai.com" ++ "" else ""))
      | some (some h) =>
        some (src ++ "|" ++
          (if h != "" && !pyStartsWith h "http" then "https://civitai.com" ++ h else h))

/-- Number of keys in the list that are fresh relative to `seen`, counting
    each distinct new key once. -/
def countNewKeys : List (Option String) → List String → ℕ
  | [], _ => 0
  | none :: rest, seen => countNewKeys rest seen
  | some k :: rest, seen =>
    if seen.contains k then countNewKeys rest seen
    else 1 + countNewKeys rest (k :: seen)

/-- What one scroll iteration sees: whether the main content container was
    found (lines 292-295), the candidate units of the re-parsed page, and
    the `time.time()` reading during the iteration (the two calls at
    lines 438-439 are moments apart and modelled as one reading). -/
structure IterInput where
  containerFound : Bool
  units : List CardUnit
  now : ℚ

/-- The while-loop of lines 280-447, structural on the number of scroll
    attempts left out of `max_scroll_attempts = 50`.  Beyond the scrape
    state it threads `no_new_images_start_time` and — as an `Option`,
    because Python binds it only at line 447 — `no_new_images_count`; the
    log message at line 440 reads the latter, so an unbound read raises
    before the 20-second check at line 442 is reached.  A missing container
    `continue`s without touching the timer state (line 295). -/
def scrapeLoopAux (md5 : ByteSeq → String) (base : String) (iters : ℕ → IterInput) :
    ℕ → ℕ → ScrapeState → Option ℚ → Option ℕ → Except RunError ScrapeState
  | 0, _, st, _, _ => .ok st
  | fuel + 1, attempts, st, startTime, noNewCount =>
    let inp := iters attempts
    if !inp.containerFound then
      scrapeLoopAux md5 base iters fuel (attempts + 1) st startTime noNewCount
    else
      match processUnits md5 base inp.units st 0 with
      | .error e => .error e
      | .ok (st', newly) =>
        if newly == 0 && inp.units.length > 0 then
          let startT := startTime.getD inp.now
          match noNewCount with
          | none => .error .unboundLocalNoNewImages
          | some c =>
            if inp.now - startT ≥ 20 then .ok st'
            else scrapeLoopAux md5 base iters fuel (attempts + 1) st' (some startT) (some c)
        else scrapeLoopAux md5 base iters fuel (attempts + 1) st' none (some 0)

/-- The scroll-and-extract loop from its initial state (lines 259-263):
    no attempts made, empty seen-set inside `st`, timer unset, counter
    unbound. -/
def performCivitaiScrapeLoop (md5 : ByteSeq → String) (base : String)
    (iters : ℕ → IterInput) (st : ScrapeState) : Except RunError ScrapeState :=
  scrapeLoopAux md5 base iters 50 0 st none none

/-! ## Theorems

Helper lemmas first, then one theorem per claim (with witness theorems for
the claims whose theorem carries hypotheses). -/

/-! ### Helper lemmas: the common-prefix loop -/

/-- The loop's output is an initial segment of the first split path. -/
theorem commonPrefixLoop_isPre_first :
    ∀ (p : List String) (rest : List (List String)), commonPrefixLoop p rest <+: p
  | [], _ => ⟨[], rfl⟩
  | a :: p, rest => by
    rw [commonPrefixLoop]
    split
    · exact List.cons_prefix_cons.mpr ⟨rfl, commonPrefixLoop_isPre_first p (rest.map List.tail)⟩
    · exact ⟨a :: p, rfl⟩

/-- The loop's output is an initial segment of every other split path. -/
theorem commonPrefixLoop_isPre_mem :
    ∀ (p : List String) (rest : List (List String)) (q : List String),
      q ∈ rest → commonPrefixLoop p rest <+: q
  | [], _, q, _ => ⟨q, rfl⟩
  | a :: p, rest, q, hq => by
    rw [commonPrefixLoop]
    split
    · next hall =>
      have h1 := List.all_eq_true.mp hall q hq
      have h1' : (!q.isEmpty) = true ∧ (q.headD "" == a) = true := by simpa using h1
      obtain ⟨hne, hhd⟩ := h1'
      match q, hne with
      | b :: q', _ =>
        have hb : b = a := by simpa using hhd
        subst hb
        exact List.cons_prefix_cons.mpr
          ⟨rfl, commonPrefixLoop_isPre_mem p (rest.map List.tail) q'
            (List.mem_map.mpr ⟨b :: q', hq, rfl⟩)⟩
    · exact ⟨q, rfl⟩

/-- Maximality: any common initial segment of all the split paths is an
    initial segment of the loop's output. -/
theorem commonPrefixLoop_maximal :
    ∀ (t p : List String) (rest : List (List String)),
      t <+: p → (∀ q ∈ rest, t <+: q) → t <+: commonPrefixLoop p rest
  | [], p, rest, _, _ => ⟨commonPrefixLoop p rest, rfl⟩
  | a :: t, p, rest, hp, hrest => by
    obtain ⟨r, rfl⟩ := hp
    have hall : rest.all (fun q => !q.isEmpty && q.headD "" == a) = true := by
      rw [List.all_eq_true]
      intro q hq
      obtain ⟨rq, hrq⟩ := hrest q hq
      rw [← hrq]
      simp
    rw [show (a :: t) ++ r = a :: (t ++ r) from rfl, commonPrefixLoop, if_pos hall]
    refine List.cons_prefix_cons.mpr
      ⟨rfl, commonPrefixLoop_maximal t (t ++ r) (rest.map List.tail) ⟨r, rfl⟩ ?_⟩
    intro q' hq'
    obtain ⟨q, hqmem, rfl⟩ := List.mem_map.mp hq'
    obtain ⟨rq, hrq⟩ := hrest q hqmem
    rw [← hrq]
    exact ⟨rq, rfl⟩

/-- Line 187's filter already removes exactly the entries the filter
    predicate rejects, so filtering the input first changes nothing. -/
theorem splitPathsOf_filter (paths : List (List String)) :
    splitPathsOf (paths.filter (fun p => !p.isEmpty && !(p.headD "").isEmpty))
      = splitPathsOf paths := by
  unfold splitPathsOf
  rw [List.filter_filter]
  congr 1
  apply List.filter_congr
  intro p _
  cases p.isEmpty <;> cases (p.headD "").isEmpty <;> rfl

/-- `get_common_prefix` is invariant under dropping the entries that
    line 187 filters out (empty inner lists and empty path strings). -/
theorem get_common_prefix_filter_eq (paths : List (List String)) :
    get_common_prefix paths
      = get_common_prefix (paths.filter (fun p => !p.isEmpty && !(p.headD "").isEmpty)) := by
  unfold get_common_prefix get_common_prefix_tokens
  rw [splitPathsOf_filter]
  match paths with
  | [] => rfl
  | p₀ :: ps =>
    match hf : ((p₀ :: ps).filter (fun p => !p.isEmpty && !(p.headD "").isEmpty)) with
    | [] =>
      have hsp : splitPathsOf (p₀ :: ps) = [] := by unfold splitPathsOf; rw [hf]; rfl
      rw [hsp, hf]
      rfl
    | q :: qs =>
      rw [hf]
      rfl

/-! ### Helper lemmas: the DOM model -/

mutual
/-- Structural equality is reflexive. -/
theorem Dom.beq_refl : ∀ d : Dom, Dom.beq d d = true
  | .node n c => by
    rw [Dom.beq]
    exact Bool.and_eq_true_iff.mpr ⟨by simp, Dom.beqChildren_refl c⟩
/-- Pointwise structural equality is reflexive. -/
theorem Dom.beqChildren_refl : ∀ l : List Dom, Dom.beqChildren l l = true
  | [] => rfl
  | a :: as => by
    rw [Dom.beqChildren]
    exact Bool.and_eq_true_iff.mpr ⟨Dom.beq_refl a, Dom.beqChildren_refl as⟩
end

mutual
/-- Structurally equal trees have the same size. -/
theorem Dom.beq_size : ∀ a b : Dom, Dom.beq a b = true → Dom.size a = Dom.size b
  | .node n₁ c₁, .node n₂ c₂, h => by
    rw [Dom.beq] at h
    rw [Dom.size, Dom.size, Dom.beqChildren_size c₁ c₂ (Bool.and_eq_true_iff.mp h).2]
/-- Structurally equal child lists have the same total size. -/
theorem Dom.beqChildren_size :
    ∀ as bs : List Dom, Dom.beqChildren as bs = true → Dom.sizeChildren as = Dom.sizeChildren bs
  | [], [], _ => rfl
  | a :: as, b :: bs, h => by
    rw [Dom.beqChildren] at h
    rw [Dom.sizeChildren, Dom.sizeChildren, Dom.beq_size a b (Bool.and_eq_true_iff.mp h).1,
      Dom.beqChildren_size as bs (Bool.and_eq_true_iff.mp h).2]
  | [], _ :: _, h => by simp [Dom.beqChildren] at h
  | _ :: _, [], h => by simp [Dom.beqChildren] at h
end

/-- A tree of strictly smaller size is never structurally equal. -/
theorem Dom.beq_false_of_size_lt {a b : Dom} (h : Dom.size a < Dom.size b) :
    Dom.beq a b = false := by
  cases hb : Dom.beq a b
  · rfl
  · exact absurd (Dom.beq_size a b hb) (by omega)

/-- A member of a child list contributes at most the total size. -/
theorem Dom.size_le_sizeChildren :
    ∀ (c : Dom) (cs : List Dom), c ∈ cs → Dom.size c ≤ Dom.sizeChildren cs
  | c, a :: as, h => by
    rw [Dom.sizeChildren]
    rcases List.mem_cons.mp h with rfl | h'
    · omega
    · have := Dom.size_le_sizeChildren c as h'
      omega

/-- A child is strictly smaller than its parent. -/
theorem Dom.size_child_lt {c : Dom} {n : Option String} {cs : List Dom} (h : c ∈ cs) :
    Dom.size c < Dom.size (.node n cs) := by
  rw [Dom.size]
  have := Dom.size_le_sizeChildren c cs h
  omega

/-- A subtree is at most as large as the tree. -/
theorem subtreeAt_size_le :
    ∀ (p : List ℕ) (d s : Dom), subtreeAt d p = some s → Dom.size s ≤ Dom.size d
  | [], d, s, h => by rw [subtreeAt] at h; cases h; exact le_refl _
  | i :: p, d, s, h => by
    rw [subtreeAt] at h
    match hc : d.children[i]? with
    | none => rw [hc] at h; cases h
    | some c =>
      rw [hc] at h
      have h1 := subtreeAt_size_le p c s h
      have h2 : c ∈ d.children := List.getElem?_mem hc
      have h3 : Dom.size c < Dom.size d := by
        match d with
        | .node n cs => exact Dom.size_child_lt h2
      omega

/-- A proper subtree is strictly smaller than the tree. -/
theorem subtreeAt_size_lt (p : List ℕ) (d s : Dom) (h : subtreeAt d p = some s)
    (hp : p ≠ []) : Dom.size s < Dom.size d := by
  match p, hp with
  | i :: p, _ =>
    rw [subtreeAt] at h
    match hc : d.children[i]? with
    | none => rw [hc] at h; cases h
    | some c =>
      rw [hc] at h
      have h1 := subtreeAt_size_le p c s h
      have h2 : c ∈ d.children := List.getElem?_mem hc
      have h3 : Dom.size c < Dom.size d := by
        match d with
        | .node n cs => exact Dom.size_child_lt h2
      omega

/-- Walking a concatenated position walks the two parts in turn. -/
theorem subtreeAt_append :
    ∀ (a r : List ℕ) (d : Dom),
      subtreeAt d (a ++ r) = (subtreeAt d a).bind (fun m => subtreeAt m r)
  | [], r, d => by rw [subtreeAt]; rfl
  | i :: a, r, d => by
    rw [show (i :: a) ++ r = i :: (a ++ r) from rfl, subtreeAt, subtreeAt]
    match hc : d.children[i]? with
    | none => rfl
    | some c => exact subtreeAt_append a r c

/-- A prefix of a valid position is valid. -/
theorem subtreeAt_isSome_of_isPre {d : Dom} {a q : List ℕ} (h : a <+: q)
    (hq : (subtreeAt d q).isSome) : (subtreeAt d a).isSome := by
  obtain ⟨r, rfl⟩ := h
  rw [subtreeAt_append] at hq
  match ha : subtreeAt d a with
  | some m => rfl
  | none => rw [ha] at hq; cases hq

/-- If the node at `p` has a Python-falsy name, the walk from `p` pushes no
    token at all (it exits at its very first iteration). -/
theorem pathTokensAux_falsy (root ancSub : Dom) (p : List ℕ) (nd : Dom)
    (h : subtreeAt root p = some nd) (hf : nameFalsy nd.name = true) :
    pathTokensAux root ancSub p.reverse = [] := by
  match hrev : p.reverse with
  | [] => rw [pathTokensAux]
  | i :: rp =>
    rw [pathTokensAux]
    have hp : (i :: rp).reverse = p := by rw [← hrev, List.reverse_reverse]
    rw [hp, h]
    cases hbeq : Dom.beq nd ancSub
    · simp only [hbeq, Bool.false_eq_true, if_false, hf, if_true]
    · simp only [hbeq, if_true]

/-- Reducing `get_element_path_tokens` when both positions are valid. -/
theorem get_element_path_tokens_eq_aux (root : Dom) (ep ap : List ℕ) (el ancSub : Dom)
    (h1 : subtreeAt root ep = some el) (h2 : subtreeAt root ap = some ancSub) :
    get_element_path_tokens root (some ep) (some ap)
      = if el.name.isNone then [] else pathTokensAux root ancSub ep.reverse := by
  unfold get_element_path_tokens
  simp only [h1, h2]

/-- The walk from a node to itself pushes no token (the loop condition
    `current != ancestor` fails at once). -/
theorem pathTokensAux_self (root el : Dom) (b : List ℕ) (hb : subtreeAt root b = some el) :
    pathTokensAux root el b.reverse = [] := by
  match hrev : b.reverse with
  | [] => rw [pathTokensAux]
  | i :: rp =>
    rw [pathTokensAux]
    have hp : (i :: rp).reverse = b := by rw [← hrev, List.reverse_reverse]
    rw [hp, hb]
    simp [Dom.beq_refl el]

/-- `get_element_path(x, x) = ""` for any present node. -/
theorem get_element_path_self (root : Dom) (b : List ℕ)
    (h : (subtreeAt root b).isSome) : get_element_path root (some b) (some b) = "" := by
  match hb : subtreeAt root b with
  | none => rw [hb] at h; cases h
  | some el =>
    unfold get_element_path
    rw [get_element_path_tokens_eq_aux root b b el el hb hb,
      pathTokensAux_self root el b hb, ite_self]
    rfl

/-- One step of the walk: a tagged node strictly below the ancestor pushes
    its own token after its parent's walk. -/
theorem pathTokensAux_cons_eq (root ancSub : Dom) (p : List ℕ) (i : ℕ) (nd parentN : Dom)
    (t : String) (hnd : subtreeAt root (p ++ [i]) = some nd)
    (hP : subtreeAt root p = some parentN) (hbeq : Dom.beq nd ancSub = false)
    (hname : nd.name = some t) (ht : t ≠ "") :
    pathTokensAux root ancSub (i :: p.reverse)
      = pathTokensAux root ancSub p.reverse ++ [siblingToken parentN nd t] := by
  have hrev2 : (i :: p.reverse).reverse = p ++ [i] := by simp
  have hnf : nameFalsy (some t) = false := by simp [nameFalsy, ht]
  rw [pathTokensAux]
  simp only [hrev2, hnd, hbeq, Bool.false_eq_true, if_false, List.reverse_reverse,
    hP, hname, hnf]

/-- Token-count step: for a node with a truthy tag sitting strictly below
    the ancestor, the walk has exactly one token more than its parent's
    walk (whatever the parent's own name is). -/
theorem get_element_path_tokens_step (root : Dom) (a p : List ℕ) (i : ℕ) (nd : Dom)
    (t : String) (hnd : subtreeAt root (p ++ [i]) = some nd) (hname : nd.name = some t)
    (ht : t ≠ "") (ha : a <+: p) :
    (get_element_path_tokens root (some (p ++ [i])) (some a)).length
      = (get_element_path_tokens root (some p) (some a)).length + 1 := by
  have hvalid : (subtreeAt root (p ++ [i])).isSome := by rw [hnd]; rfl
  have haq : a <+: (p ++ [i]) := ha.trans ⟨[i], rfl⟩
  have hanc : (subtreeAt root a).isSome := subtreeAt_isSome_of_isPre haq hvalid
  match hA : subtreeAt root a with
  | none => rw [hA] at hanc; cases hanc
  | some ancSub =>
    have hpv : (subtreeAt root p).isSome := subtreeAt_isSome_of_isPre ⟨[i], rfl⟩ hvalid
    match hP : subtreeAt root p with
    | none => rw [hP] at hpv; cases hpv
    | some parentN =>
      obtain ⟨r, hr⟩ := haq
      have hrne : r ≠ [] := by
        intro h0
        subst h0
        rw [List.append_nil] at hr
        obtain ⟨ra, hra⟩ := ha
        have h1 : a.length = p.length + 1 := by rw [hr]; simp
        have h2 : a.length ≤ p.length := by rw [← hra, List.length_append]; omega
        omega
      have hsub : subtreeAt ancSub r = some nd := by
        have h3 := subtreeAt_append a r root
        rw [hr, hnd, hA] at h3
        exact h3.symm
      have hbeq : Dom.beq nd ancSub = false :=
        Dom.beq_false_of_size_lt (subtreeAt_size_lt r ancSub nd hsub hrne)
      have hniN : nd.name.isNone = false := by rw [hname]; rfl
      rw [get_element_path_tokens_eq_aux root (p ++ [i]) a nd ancSub hnd hA,
        get_element_path_tokens_eq_aux root p a parentN ancSub hP hA, hniN]
      have hrev1 : (p ++ [i]).reverse = i :: p.reverse := by simp
      rw [if_neg (by simp), hrev1,
        pathTokensAux_cons_eq root ancSub p i nd parentN t hnd hP hbeq hname ht]
      cases hpn : parentN.name.isNone
      · rw [if_neg (by simp [hpn]), List.length_append]
        rfl
      · have hfal : nameFalsy parentN.name = true := by
          rw [Option.isNone_iff_eq_none] at hpn
          rw [hpn]
          rfl
        rw [pathTokensAux_falsy root ancSub p parentN hP hfal, if_pos (by simp [hpn])]
        rfl

/-! ### Helper lemmas: the image fetcher -/

/-- A mapping found in the history is still found after appending entries. -/
theorem histLookup_append_of_found {h l : List (String × String)} {d p : String}
    (hf : histLookup h d = some p) : histLookup (h ++ l) d = some p := by
  unfold histLookup at hf ⊢
  rw [List.find?_append]
  match hfind : h.find? (fun e => e.1 == d) with
  | none => rw [hfind] at hf; cases hf
  | some e =>
    rw [hfind] at hf
    simp only [Option.map_some'] at hf
    simp [hfind, hf]

/-- Appending an entry for a different digest does not change a lookup. -/
theorem histLookup_append_other {h : List (String × String)} {d d' f : String}
    (hne : d' ≠ d) : histLookup (h ++ [(d', f)]) d = histLookup h d := by
  unfold histLookup
  rw [List.find?_append]
  match hfind : h.find? (fun e => e.1 == d) with
  | some e => simp [hfind]
  | none =>
    have hd : (d' == d) = false := by simp [hne]
    simp [hfind, List.find?, hd]

/-- Appending an entry for an absent digest makes its lookup succeed. -/
theorem histLookup_append_self {h : List (String × String)} {d f : String}
    (hn : histLookup h d = none) : histLookup (h ++ [(d, f)]) d = some f := by
  unfold histLookup at hn ⊢
  rw [List.find?_append]
  match hfind : h.find? (fun e => e.1 == d) with
  | some e => rw [hfind] at hn; cases hn
  | none => simp [hfind, List.find?]

/-- The write count ignores appended entries for other digests. -/
theorem writesFor_append_other {w : List (String × String)} {d d' f : String}
    (hne : d' ≠ d) : writesFor d (w ++ [(d', f)]) = writesFor d w := by
  have hd : (d' == d) = false := by simp [hne]
  simp [writesFor, List.filter_append, hd]

/-- The write count grows by one on an appended entry for the digest. -/
theorem writesFor_append_self {w : List (String × String)} {d f : String} :
    writesFor d (w ++ [(d, f)]) = writesFor d w + 1 := by
  simp [writesFor, List.filter_append]

/-- Exhaustive behaviour of one `process_image_data` call: no effect with a
    `(None, None)` result; a history hit returning the recorded path with no
    state change; or a miss appending one file write and one history entry. -/
theorem process_image_data_cases (md5 : ByteSeq → String) (inp : FetchInput) (base : String)
    (st : FetchState) :
    (process_image_data md5 inp base st = (⟨none, none⟩, st)) ∨
    (∃ d p, histLookup st.history d = some p ∧
      process_image_data md5 inp base st = (⟨some p, some d⟩, st)) ∨
    (∃ d f, histLookup st.history d = none ∧
      process_image_data md5 inp base st
        = (⟨some f, some d⟩, ⟨st.history ++ [(d, f)], st.writeLog ++ [(d, f)]⟩)) := by
  by_cases hu : inp.url = ""
  · exact Or.inl (by simp [process_image_data, hu])
  · cases hs : pyStartsWith inp.url "http"
    · exact Or.inl (by simp [process_image_data, hu, hs])
    · match hr : inp.response with
      | none => exact Or.inl (by simp [process_image_data, hu, hs, hr])
      | some bytes =>
        match hL : histLookup st.history (md5 bytes) with
        | some p =>
          exact Or.inr (Or.inl ⟨md5 bytes, p, hL,
            by simp [process_image_data, hu, hs, hr, hL]⟩)
        | none =>
          exact Or.inr (Or.inr ⟨md5 bytes,
            base ++ "/" ++ md5 bytes ++ "." ++ deriveExtension inp.url, hL,
            by simp [process_image_data, hu, hs, hr, hL]⟩)

/-- Run invariant, found case: once a digest maps to a path, a sequential
    run keeps the mapping, performs no further write for that digest, and
    every result carrying that digest returns that path. -/
theorem runFetches_found (md5 : ByteSeq → String) (base : String) (d p : String) :
    ∀ (inps : List FetchInput) (st : FetchState), histLookup st.history d = some p →
      histLookup (runFetches md5 inps base st).2.history d = some p ∧
      writesFor d (runFetches md5 inps base st).2.writeLog = writesFor d st.writeLog ∧
      ∀ r ∈ (runFetches md5 inps base st).1, r.digest = some d → r.path = some p
  | [], st, h => by
    refine ⟨h, rfl, ?_⟩
    intro r hr
    simp [runFetches] at hr
  | i :: rest, st, h => by
    rcases process_image_data_cases md5 i base st with hc | ⟨d', p', hL, hc⟩ | ⟨d', f, hL, hc⟩
    · have ih := runFetches_found md5 base d p rest st h
      simp only [runFetches, hc]
      refine ⟨ih.1, ih.2.1, ?_⟩
      intro r hr hdig
      rcases List.mem_cons.mp hr with rfl | hr'
      · cases hdig
      · exact ih.2.2 r hr' hdig
    · have ih := runFetches_found md5 base d p rest st h
      simp only [runFetches, hc]
      refine ⟨ih.1, ih.2.1, ?_⟩
      intro r hr hdig
      rcases List.mem_cons.mp hr with rfl | hr'
      · have hdd : d' = d := by simpa using hdig
        subst hdd
        rw [hL] at h
        simpa using h
      · exact ih.2.2 r hr' hdig
    · have hne : d' ≠ d := by
        intro h0
        subst h0
        rw [hL] at h
        cases h
      have hst' : histLookup (st.history ++ [(d', f)]) d = some p :=
        histLookup_append_of_found h
      have ih := runFetches_found md5 base d p rest
        ⟨st.history ++ [(d', f)], st.writeLog ++ [(d', f)]⟩ hst'
      simp only [runFetches, hc]
      refine ⟨ih.1, ?_, ?_⟩
      · rw [ih.2.1, writesFor_append_other hne]
      · intro r hr hdig
        rcases List.mem_cons.mp hr with rfl | hr'
        · have hdd : d' = d := by simpa using hdig
          exact absurd hdd hne
        · exact ih.2.2 r hr' hdig

/-- Run invariant, absent case: starting from a history without the digest,
    a sequential run writes at most one file for it, and every result
    carrying the digest returns exactly the path recorded in the final
    history. -/
theorem runFetches_absent (md5 : ByteSeq → String) (base : String) (d : String) :
    ∀ (inps : List FetchInput) (st : FetchState), histLookup st.history d = none →
      writesFor d (runFetches md5 inps base st).2.writeLog ≤ writesFor d st.writeLog + 1 ∧
      ∀ r ∈ (runFetches md5 inps base st).1, r.digest = some d →
        r.path = histLookup (runFetches md5 inps base st).2.history d ∧
        (histLookup (runFetches md5 inps base st).2.history d).isSome
  | [], st, h => by
    refine ⟨by simp [runFetches], ?_⟩
    intro r hr
    simp [runFetches] at hr
  | i :: rest, st, h => by
    rcases process_image_data_cases md5 i base st with hc | ⟨d', p', hL, hc⟩ | ⟨d', f, hL, hc⟩
    · have ih := runFetches_absent md5 base d rest st h
      simp only [runFetches, hc]
      refine ⟨ih.1, ?_⟩
      intro r hr hdig
      rcases List.mem_cons.mp hr with rfl | hr'
      · cases hdig
      · exact ih.2 r hr' hdig
    · have hne : d' ≠ d := by
        intro h0
        subst h0
        rw [hL] at h
        cases h
      have ih := runFetches_absent md5 base d rest st h
      simp only [runFetches, hc]
      refine ⟨ih.1, ?_⟩
      intro r hr hdig
      rcases List.mem_cons.mp hr with rfl | hr'
      · have hdd : d' = d := by simpa using hdig
        exact absurd hdd hne
      · exact ih.2 r hr' hdig
    · by_cases hdd : d' = d
      · subst hdd
        have hst' : histLookup (st.history ++ [(d', f)]) d' = some f :=
          histLookup_append_self hL
        have ihf := runFetches_found md5 base d' f rest
          ⟨st.history ++ [(d', f)], st.writeLog ++ [(d', f)]⟩ hst'
        simp only [runFetches, hc]
        refine ⟨?_, ?_⟩
        · rw [ihf.2.1, writesFor_append_self]
        · intro r hr hdig
          rcases List.mem_cons.mp hr with rfl | hr'
          · refine ⟨?_, ?_⟩
            · rw [ihf.1]
            · rw [ihf.1]; rfl
          · refine ⟨?_, ?_⟩
            · rw [ihf.1]; exact ihf.2.2 r hr' hdig
            · rw [ihf.1]; rfl
      · have hst' : histLookup (st.history ++ [(d', f)]) d = none := by
          rw [histLookup_append_other hdd, h]
        have ih := runFetches_absent md5 base d rest
          ⟨st.history ++ [(d', f)], st.writeLog ++ [(d', f)]⟩ hst'
        simp only [runFetches, hc]
        refine ⟨?_, ?_⟩
        · have := ih.1
          rw [writesFor_append_other hdd] at this
          exact this
        · intro r hr hdig
          rcases List.mem_cons.mp hr with rfl | hr'
          · have : d' = d := by simpa using hdig
            exact absurd this hdd
          · exact ih.2 r hr' hdig

/-! ### Helper lemmas: the extraction loop -/

/-- A unit without a key is either skipped without effect or raises. -/
theorem processUnit_of_none (md5 : ByteSeq → String) (base : String) (u : CardUnit)
    (st : ScrapeState) (hk : unitKey u = none) :
    processUnit md5 base u st = .ok (st, false) ∨
    ∃ e, processUnit md5 base u st = .error e := by
  match himg : u.imgSrc with
  | none => exact Or.inl (by simp [processUnit, himg])
  | some src =>
    cases hbad : (src == "" || !pyStartsWith src "http") with
    | true => exact Or.inl (by simp [processUnit, himg, hbad])
    | false =>
      match hhref : u.parentHref with
      | some none =>
        exact Or.inr ⟨.typeErrorNoneHref, by simp [processUnit, himg, hbad, hhref]⟩
      | none => simp [unitKey, himg, hbad, hhref] at hk
      | some (some hv) => simp [unitKey, himg, hbad, hhref] at hk

/-- A unit with key `k` is skipped when the key was seen, and otherwise
    adds the key, appends exactly one record and reports a new unit. -/
theorem processUnit_of_key (md5 : ByteSeq → String) (base : String) (u : CardUnit)
    (st : ScrapeState) (k : String) (hk : unitKey u = some k) :
    (st.processed.contains k = true ∧ processUnit md5 base u st = .ok (st, false)) ∨
    (st.processed.contains k = false ∧ ∃ rec fst',
      processUnit md5 base u st
        = .ok (⟨k :: st.processed, st.results ++ [rec], fst'⟩, true)) := by
  match himg : u.imgSrc with
  | none => simp [unitKey, himg] at hk
  | some src =>
    cases hbad : (src == "" || !pyStartsWith src "http") with
    | true => simp [unitKey, himg, hbad] at hk
    | false =>
      match hhref : u.parentHref with
      | some none => simp [unitKey, himg, hbad, hhref] at hk
      | none =>
        simp only [unitKey, himg, hbad, Bool.false_eq_true, if_false, hhref] at hk
        have hk2 :
            src ++ "|" ++
              (if "" != "" && !pyStartsWith "" "http" then "https://civitai.com" ++ ""
               else "") = k := Option.some.inj hk
        cases hmem : st.processed.contains k with
        | true =>
          refine Or.inl ⟨rfl, ?_⟩
          simp only [processUnit, himg, hbad, Bool.false_eq_true, if_false, hhref]
          rw [hk2, hmem, if_pos rfl]
        | false =>
          refine Or.inr ⟨rfl, ?_⟩
          simp only [processUnit, himg, hbad, Bool.false_eq_true, if_false, hhref]
          rw [hk2, hmem, if_neg Bool.false_ne_true]
          exact ⟨_, _, rfl⟩
      | some (some hv) =>
        simp only [unitKey, himg, hbad, Bool.false_eq_true, if_false, hhref] at hk
        have hk2 :
            src ++ "|" ++
              (if hv != "" && !pyStartsWith hv "http" then "https://civitai.com" ++ hv
               else hv) = k := Option.some.inj hk
        cases hmem : st.processed.contains k with
        | true =>
          refine Or.inl ⟨rfl, ?_⟩
          simp only [processUnit, himg, hbad, Bool.false_eq_true, if_false, hhref]
          rw [hk2, hmem, if_pos rfl]
        | false =>
          refine Or.inr ⟨rfl, ?_⟩
          simp only [processUnit, himg, hbad, Bool.false_eq_true, if_false, hhref]
          rw [hk2, hmem, if_neg Bool.false_ne_true]
          exact ⟨_, _, rfl⟩

/-- A successful pass over the extracted units appends exactly one record
    per distinct fresh dedup key, and reports exactly that many new units. -/
theorem processUnits_results_len (md5 : ByteSeq → String) (base : String) :
    ∀ (units : List CardUnit) (st : ScrapeState) (n : ℕ) (out : ScrapeState × ℕ),
      processUnits md5 base units st n = .ok out →
      out.1.results.length
          = st.results.length + countNewKeys (units.map unitKey) st.processed ∧
      out.2 = n + countNewKeys (units.map unitKey) st.processed
  | [], st, n, out, h => by
    rw [processUnits] at h
    cases h
    simp [countNewKeys]
  | u :: us, st, n, out, h => by
    match hk : unitKey u with
    | none =>
      rcases processUnit_of_none md5 base u st hk with hpu | ⟨e, hpu⟩
      · simp only [processUnits, hpu] at h
        have ih := processUnits_results_len md5 base us st n out (by simpa using h)
        simpa [hk, countNewKeys] using ih
      · simp [processUnits, hpu] at h
    | some k =>
      rcases processUnit_of_key md5 base u st k hk with ⟨hmem, hpu⟩ | ⟨hmem, rec, fst', hpu⟩
      · simp only [processUnits, hpu] at h
        have ih := processUnits_results_len md5 base us st n out (by simpa using h)
        simp only [List.map_cons, hk, countNewKeys, hmem, if_pos rfl]
        exact ih
      · simp only [processUnits, hpu] at h
        have ih := processUnits_results_len md5 base us
          ⟨k :: st.processed, st.results ++ [rec], fst'⟩ (n + 1) out (by simpa using h)
        simp only [List.map_cons, hk, countNewKeys, hmem, Bool.false_eq_true, if_false]
        simp only [List.length_append, List.length_singleton] at ih
        constructor
        · omega
        · omega

/-! ### Claim theorems -/

/-- C1: in a run whose `process_image_data` calls execute in sequence (each
    completes before the next begins, the granularity at which the claim
    orders "first" and "later" fetches), for every digest at most one file
    write occurs, and every fetch result carrying that digest returns the
    single path recorded in the history — so all records referencing
    byte-identical content carry the same local path, the first successful
    fetch having written and recorded it. -/
theorem c1_fetch_dedup (md5 : ByteSeq → String) (inps : List FetchInput) (base : String)
    (st : FetchState) (d : String) (h0 : st.writeLog = []) :
    writesFor d (runFetches md5 inps base st).2.writeLog ≤ 1 ∧
    (∀ r ∈ (runFetches md5 inps base st).1, r.digest = some d →
      r.path = histLookup (runFetches md5 inps base st).2.history d ∧
      (histLookup (runFetches md5 inps base st).2.history d).isSome) ∧
    (∀ r₁ ∈ (runFetches md5 inps base st).1, ∀ r₂ ∈ (runFetches md5 inps base st).1,
      r₁.digest = some d → r₂.digest = some d → r₁.path = r₂.path) := by
  have h0' : writesFor d st.writeLog = 0 := by rw [h0]; rfl
  match hL : histLookup st.history d with
  | some p =>
    have hf := runFetches_found md5 base d p inps st hL
    refine ⟨?_, ?_, ?_⟩
    · rw [hf.2.1, h0']
      omega
    · intro r hr hd
      refine ⟨?_, ?_⟩
      · rw [hf.2.2 r hr hd, hf.1]
      · rw [hf.1]
        rfl
    · intro r₁ h₁ r₂ h₂ hd₁ hd₂
      rw [hf.2.2 r₁ h₁ hd₁, hf.2.2 r₂ h₂ hd₂]
  | none =>
    have hf := runFetches_absent md5 base d inps st hL
    refine ⟨?_, hf.2, ?_⟩
    · have h1 := hf.1
      rw [h0'] at h1
      omega
    · intro r₁ h₁ r₂ h₂ hd₁ hd₂
      rw [(hf.2 r₁ h₁ hd₁).1, (hf.2 r₂ h₂ hd₂).1]

/-- Witness for C1: two sequential fetches of the identical payload `[7]`
    under different URLs; the run writes once and both results carry the
    recorded path. -/
theorem c1_fetch_dedup_witness :
    (⟨[], []⟩ : FetchState).writeLog = [] ∧
    (writesFor "h1"
        (runFetches (fun bs => "h" ++ toString bs.length)
          [⟨"http://x/p.jpg", some [7]⟩, ⟨"http://y/q.png", some [7]⟩] "img"
          ⟨[], []⟩).2.writeLog ≤ 1 ∧
      (∀ r ∈ (runFetches (fun bs => "h" ++ toString bs.length)
          [⟨"http://x/p.jpg", some [7]⟩, ⟨"http://y/q.png", some [7]⟩] "img"
          ⟨[], []⟩).1, r.digest = some "h1" →
        r.path = histLookup (runFetches (fun bs => "h" ++ toString bs.length)
          [⟨"http://x/p.jpg", some [7]⟩, ⟨"http://y/q.png", some [7]⟩] "img"
          ⟨[], []⟩).2.history "h1" ∧
        (histLookup (runFetches (fun bs => "h" ++ toString bs.length)
          [⟨"http://x/p.jpg", some [7]⟩, ⟨"http://y/q.png", some [7]⟩] "img"
          ⟨[], []⟩).2.history "h1").isSome) ∧
      (∀ r₁ ∈ (runFetches (fun bs => "h" ++ toString bs.length)
          [⟨"http://x/p.jpg", some [7]⟩, ⟨"http://y/q.png", some [7]⟩] "img"
          ⟨[], []⟩).1,
        ∀ r₂ ∈ (runFetches (fun bs => "h" ++ toString bs.length)
          [⟨"http://x/p.jpg", some [7]⟩, ⟨"http://y/q.png", some [7]⟩] "img"
          ⟨[], []⟩).1,
        r₁.digest = some "h1" → r₂.digest = some "h1" → r₁.path = r₂.path)) :=
  ⟨rfl, c1_fetch_dedup (fun bs => "h" ++ toString bs.length)
    [⟨"http://x/p.jpg", some [7]⟩, ⟨"http://y/q.png", some [7]⟩] "img" ⟨[], []⟩ "h1" rfl⟩

/-- C2 counterexample: `"aK"` is non-numeric text, but the parser raises an
    uncaught `ValueError` from `float("a")` (modelled as `none`) instead of
    yielding `"0"` as the claim states. -/
theorem c2_counterexample : parse_count_text "aK" ≠ some "0" := by decide

/-- C2 amended: commas are stripped and the stated examples hold, but a
    `'K'`/`'M'` anywhere (not only trailing, `'K'` checked first) removes
    every such letter and multiplies; text without the letters that
    `int` rejects yields `"0"` (including fractional text like `"1.5"`);
    and K/M-text whose remainder is not a numeral raises (modelled as
    `none`) rather than yielding zero. -/
theorem c2_amended :
    parse_count_text "12,111" = some "12111" ∧
    parse_count_text "1.2K" = some "1200" ∧
    parse_count_text "2M" = some "2000000" ∧
    parse_count_text "" = some "0" ∧
    parse_count_text "abc" = some "0" ∧
    parse_count_text "1.5" = some "0" ∧
    parse_count_text "K2" = some "2000" ∧
    parse_count_text "aK" = none := by decide

/-- C3 counterexample: an empty path string (an exhausted/empty sequence)
    in the input does not truncate the result to the empty prefix as the
    claim states — line 187 filters it out, and the common prefix of
    `["a"]` with an empty entry is `"a"`, not `""` (likewise for an empty
    inner list). -/
theorem c3_counterexample :
    get_common_prefix [["a"], [""]] = "a" ∧
    get_common_prefix [["a"], [""]] ≠ "" ∧
    get_common_prefix [["a"], []] = "a" := by decide

/-- C3 amended: after excluding empty entries (line 187), the function
    returns the longest initial token subsequence shared by the remaining
    split paths: empty input gives `""`, a singleton gives the path back,
    disagreement or exhaustion truncates (the stated examples), the loop
    output is an initial segment of every split path, and it is the longest
    such segment. -/
theorem c3_amended :
    get_common_prefix [] = "" ∧
    get_common_prefix [["a > b"]] = "a > b" ∧
    get_common_prefix [["a > b"], ["a > b > c"]] = "a > b" ∧
    get_common_prefix [["a"], ["b"]] = "" ∧
    (∀ paths : List (List String),
      get_common_prefix paths
        = get_common_prefix (paths.filter (fun p => !p.isEmpty && !(p.headD "").isEmpty))) ∧
    (∀ (p : List String) (rest : List (List String)) (q : List String),
      q ∈ p :: rest → commonPrefixLoop p rest <+: q) ∧
    (∀ (p : List String) (rest : List (List String)) (t : List String),
      t <+: p → (∀ q ∈ rest, t <+: q) → t <+: commonPrefixLoop p rest) := by
  refine ⟨by decide, by decide, by decide, by decide, get_common_prefix_filter_eq, ?_, ?_⟩
  · intro p rest q hq
    rcases List.mem_cons.mp hq with heq | hq'
    · rw [heq]
      exact commonPrefixLoop_isPre_first _ rest
    · exact commonPrefixLoop_isPre_mem p rest q hq'
  · intro p rest t ht hall
    exact commonPrefixLoop_maximal t p rest ht hall

/-- Witness for C3 amended: the loop output on `["a","b"]` against
    `["a","c"]` is an initial segment of the member `["a","c"]`, and the
    common segment `["a"]` is below the loop output. -/
theorem c3_amended_witness :
    (["a", "c"] ∈ [["a", "b"], ["a", "c"]] ∧
      commonPrefixLoop ["a", "b"] [["a", "c"]] <+: ["a", "c"]) ∧
    (["a"] <+: ["a", "b"] ∧
      ["a"] <+: commonPrefixLoop ["a", "b"] [["a", "c"]]) :=
  ⟨⟨by decide, c3_amended.2.2.2.2.2.1 ["a", "b"] [["a", "c"]] ["a", "c"] (by decide)⟩,
   ⟨⟨["b"], rfl⟩, c3_amended.2.2.2.2.2.2 ["a", "b"] [["a", "c"]] ["a"] ⟨["b"], rfl⟩
      (by
        intro q hq
        rw [List.mem_singleton] at hq
        subst hq
        exact ⟨["c"], rfl⟩)⟩⟩

/-- C4 counterexample: with an empty-named tag strictly between the node
    and the ancestor (`div > "" > img`, constructible through bs4's `Tag`
    API), the walk `break`s at line 162 but returns the partial path
    `"img"` already accumulated — not the empty result the claim states. -/
theorem c4_counterexample :
    get_element_path (.node (some "div") [.node (some "") [.node (some "img") []]])
      (some [0, 0]) (some []) = "img" ∧
    get_element_path (.node (some "div") [.node (some "") [.node (some "img") []]])
      (some [0, 0]) (some []) ≠ "" := by decide

/-- C4 amended: the result is empty when the node is absent, the ancestor
    is absent, or the node *itself* has a falsy tag; a tagless node met
    strictly above the node merely stops the walk, keeping the tokens
    already pushed (see the counterexample). -/
theorem c4_amended :
    (∀ (root : Dom) (x : Option (List ℕ)), get_element_path root none x = "") ∧
    (∀ (root : Dom) (x : Option (List ℕ)), get_element_path root x none = "") ∧
    (∀ (root : Dom) (ep : List ℕ) (x : Option (List ℕ)),
      subtreeAt root ep = none → get_element_path root (some ep) x = "") ∧
    (∀ (root : Dom) (ep : List ℕ) (x : Option (List ℕ)) (el : Dom),
      subtreeAt root ep = some el → nameFalsy el.name = true →
      get_element_path root (some ep) x = "") := by
  refine ⟨?_, ?_, ?_, ?_⟩
  · intro root x
    cases x <;> rfl
  · intro root x
    cases x <;> rfl
  · intro root ep x h
    cases x with
    | none => rfl
    | some ap =>
      match ha : subtreeAt root ap with
      | none =>
        rw [get_element_path, get_element_path_tokens, h, ha]
        rfl
      | some anc =>
        rw [get_element_path, get_element_path_tokens, h, ha]
        rfl
  · intro root ep x el h hf
    cases x with
    | none => rfl
    | some ap =>
      match ha : subtreeAt root ap with
      | none =>
        rw [get_element_path, get_element_path_tokens, h, ha]
        rfl
      | some anc =>
        rw [get_element_path, get_element_path_tokens_eq_aux root ep ap el anc h ha]
        cases hni : el.name.isNone with
        | true => rw [if_pos rfl]; rfl
        | false =>
          rw [if_neg Bool.false_ne_true, pathTokensAux_falsy root anc ep el h hf]
          rfl

/-- Witness for C4 amended: a nameless leaf under a `div` root has the
    empty path. -/
theorem c4_amended_witness :
    subtreeAt (.node (some "div") [.node none []]) [0] = some (.node none []) ∧
    nameFalsy (Dom.node none []).name = true ∧
    get_element_path (.node (some "div") [.node none []]) (some [0]) (some []) = "" :=
  ⟨rfl, rfl, c4_amended.2.2.2 (.node (some "div") [.node none []]) [0] (some [])
    (.node none []) rfl rfl⟩

/-- C5: the claim's own scenario — a page whose units never yield a new
    record — crashes the loop on its very first iteration instead of
    running to the attempt cap or the 20-second timeout: with one unit that
    has no `<img>` (`current_image_count = 1`, `newly_processed = 0`), the
    log call at line 440 reads the never-assigned local
    `no_new_images_count` and raises `UnboundLocalError`. -/
theorem c5_unbound_local_crash :
    performCivitaiScrapeLoop (fun _ => "") "images_civitai/downloaded_images"
      (fun _ => ⟨true, [⟨none, none, none⟩], 0⟩) ⟨[], [], ⟨[], []⟩⟩
      = .error .unboundLocalNoNewImages := rfl

/-- C7 counterexample: two *distinct* (thumbnail URL, detail URL) pairs
    whose `thumb + "|" + detail` concatenations coincide produce one
    record, not the one-record-per-unique-pair the claim states. -/
theorem c7_counterexample :
    (("http://x", "http://y|http://z") ≠ ("http://x|http://y", "http://z")) ∧
    processUnits (fun _ => "") "img"
      [⟨some "http://x", some (some "http://y|http://z"), none⟩,
       ⟨some "http://x|http://y", some (some "http://z"), none⟩]
      ⟨[], [], ⟨[], []⟩⟩ 0
      = .ok (⟨["http://x|http://y|http://z"],
              [⟨"http://x", "http://y|http://z", none⟩], ⟨[], []⟩⟩, 1) := by
  exact ⟨by decide, rfl⟩

/-- C7 amended: a successful extraction pass appends exactly one record
    per distinct fresh *concatenated key* `thumb + "|" + detail` (so a
    pair seen twice yields one record, and distinct pairs with equal
    concatenations collapse into one), and reports that many new units. -/
theorem c7_record_per_key (md5 : ByteSeq → String) (base : String)
    (units : List CardUnit) (st : ScrapeState) (n : ℕ) (out : ScrapeState × ℕ)
    (h : processUnits md5 base units st n = .ok out) :
    out.1.results.length
        = st.results.length + countNewKeys (units.map unitKey) st.processed ∧
    out.2 = n + countNewKeys (units.map unitKey) st.processed :=
  processUnits_results_len md5 base units st n out h

/-- Witness for C7 amended: the same pair twice appends exactly one
    record. -/
theorem c7_record_per_key_witness :
    processUnits (fun _ => "") "img"
      [⟨some "http://w", some (some "http://v"), none⟩,
       ⟨some "http://w", some (some "http://v"), none⟩] ⟨[], [], ⟨[], []⟩⟩ 0
      = .ok (⟨["http://w|http://v"], [⟨"http://w", "http://v", none⟩], ⟨[], []⟩⟩, 1) ∧
    ([⟨"http://w", "http://v", none⟩] : List RecordEntry).length
      = ([] : List RecordEntry).length
        + countNewKeys
            ([⟨some "http://w", some (some "http://v"), none⟩,
              ⟨some "http://w", some (some "http://v"), none⟩].map unitKey) [] :=
  ⟨rfl, (c7_record_per_key (fun _ => "") "img"
      [⟨some "http://w", some (some "http://v"), none⟩,
       ⟨some "http://w", some (some "http://v"), none⟩] ⟨[], [], ⟨[], []⟩⟩ 0
      (⟨["http://w|http://v"], [⟨"http://w", "http://v", none⟩], ⟨[], []⟩⟩, 1) rfl).1⟩

/-- C8: once the history maps a digest to a path, any sequence of
    subsequent fetch operations leaves that mapping unchanged (the map is
    written only at a digest's first appearance, line 139). -/
theorem c8_history_immutable (md5 : ByteSeq → String) (inps : List FetchInput)
    (base : String) (st : FetchState) (d p : String)
    (h : histLookup st.history d = some p) :
    histLookup (runFetches md5 inps base st).2.history d = some p :=
  (runFetches_found md5 base d p inps st h).1

/-- Witness for C8: a pre-seeded mapping survives a fetch that downloads
    new content. -/
theorem c8_history_immutable_witness :
    histLookup ([("k", "img/old.jpg")] : List (String × String)) "k" = some "img/old.jpg" ∧
    histLookup (runFetches (fun _ => "k2") [⟨"http://x/p.jpg", some [1]⟩] "img"
        ⟨[("k", "img/old.jpg")], []⟩).2.history "k" = some "img/old.jpg" :=
  ⟨rfl, c8_history_immutable (fun _ => "k2") [⟨"http://x/p.jpg", some [1]⟩] "img"
    ⟨[("k", "img/old.jpg")], []⟩ "k" "img/old.jpg" rfl⟩

/-- C9: the seen-set key is the plain concatenation
    `thumbnail_url + "|" + original_page_url` (line 321), and two distinct
    pairs whose concatenations coincide produce a single record. -/
theorem c9_key_collision :
    unitKey ⟨some "http://a", some (some "http://b|http://c"), none⟩
      = some ("http://a" ++ "|" ++ "http://b|http://c") ∧
    unitKey ⟨some "http://a|http://b", some (some "http://c"), none⟩
      = some ("http://a|http://b" ++ "|" ++ "http://c") ∧
    ("http://a" ++ "|" ++ "http://b|http://c" : String)
      = "http://a|http://b" ++ "|" ++ "http://c" ∧
    (("http://a", "http://b|http://c") ≠ ("http://a|http://b", "http://c")) ∧
    processUnits (fun _ => "") "img"
      [⟨some "http://a", some (some "http://b|http://c"), none⟩,
       ⟨some "http://a|http://b", some (some "http://c"), none⟩] ⟨[], [], ⟨[], []⟩⟩ 0
      = .ok (⟨["http://a|http://b|http://c"],
              [⟨"http://a", "http://b|http://c", none⟩], ⟨[], []⟩⟩, 1) :=
  ⟨by decide, by decide, by decide, by decide, rfl⟩

/-- C10: the common-prefix tokens are an initial segment of every
    non-empty path's token sequence, and empty path strings (and empty
    inner entries) are excluded without constraining the result. -/
theorem c10_common_prefix_bound :
    (∀ (paths : List (List String)) (p : List String), p ∈ paths → p ≠ [] →
      p.headD "" ≠ "" →
      get_common_prefix_tokens paths <+: pySplit (p.headD "") " > ") ∧
    (∀ paths : List (List String),
      get_common_prefix paths
        = get_common_prefix (paths.filter (fun p => !p.isEmpty && !(p.headD "").isEmpty))) := by
  refine ⟨?_, get_common_prefix_filter_eq⟩
  intro paths p hp hne hhd
  have hpred : (!p.isEmpty && !(p.headD "").isEmpty) = true := by
    have h1 : p.isEmpty = false := by
      cases p with
      | nil => exact absurd rfl hne
      | cons a as => rfl
    have h2 : (p.headD "").isEmpty = false := by
      cases hval : (p.headD "").isEmpty with
      | true => exact absurd ((String.isEmpty_iff (p.headD "")).mp hval) hhd
      | false => rfl
    rw [h1, h2]
    rfl
  have hmem : pySplit (p.headD "") " > " ∈ splitPathsOf paths :=
    List.mem_map.mpr ⟨p, List.mem_filter.mpr ⟨hp, hpred⟩, rfl⟩
  obtain ⟨L, hsp⟩ : ∃ L, splitPathsOf paths = L := ⟨_, rfl⟩
  rw [hsp] at hmem
  match L, hsp, hmem with
  | [], hsp, hmem => cases hmem
  | q :: rest, hsp, hmem =>
    have htok : get_common_prefix_tokens paths = commonPrefixLoop q rest := by
      rw [get_common_prefix_tokens, hsp]
    rw [htok]
    rcases List.mem_cons.mp hmem with heq | hmem'
    · rw [heq]
      exact commonPrefixLoop_isPre_first _ rest
    · exact commonPrefixLoop_isPre_mem q rest _ hmem'

/-- Witness for C10: on `[["x > y"], [""]]` the tokens of the common
    prefix are an initial segment of the non-empty path's tokens. -/
theorem c10_common_prefix_bound_witness :
    (["x > y"] ∈ [[("x > y" : String)], [""]]) ∧
    (["x > y"] ≠ ([] : List String)) ∧
    ((["x > y"] : List String).headD "" ≠ "") ∧
    get_common_prefix_tokens [["x > y"], [""]]
      <+: pySplit ((["x > y"] : List String).headD "") " > " :=
  ⟨by decide, by decide, by decide,
    c10_common_prefix_bound.1 [["x > y"], [""]] ["x > y"] (by decide) (by decide) (by decide)⟩

/-- C6 counterexample: a nameless text node (`div > div > text`) is
    strictly further from the ancestor than its parent, yet its path has
    zero tokens while its parent's has one — the token count is not
    monotonically non-decreasing over all nodes of a parent chain. -/
theorem c6_counterexample :
    get_element_path (.node (some "div") [.node (some "div") [.node none []]])
      (some [0]) (some []) = "div" ∧
    get_element_path (.node (some "div") [.node (some "div") [.node none []]])
      (some [0, 0]) (some []) = "" ∧
    (get_element_path_tokens (.node (some "div") [.node (some "div") [.node none []]])
        (some [0, 0]) (some [])).length
      < (get_element_path_tokens (.node (some "div") [.node (some "div") [.node none []]])
        (some [0]) (some [])).length := by decide

/-- C6 amended: `path(ancestor, ancestor)` is empty for any present node;
    and for a node with a truthy tag sitting strictly below the ancestor
    the path has exactly one more token than its parent's path, so the
    count is non-decreasing along the tagged nodes of a parent chain
    (a tagless node produces the empty path — see the counterexample). -/
theorem c6_path_monotone_amended :
    (∀ (root : Dom) (b : List ℕ), (subtreeAt root b).isSome →
      get_element_path root (some b) (some b) = "") ∧
    (∀ (root : Dom) (a p : List ℕ) (i : ℕ) (nd : Dom) (t : String),
      subtreeAt root (p ++ [i]) = some nd → nd.name = some t → t ≠ "" → a <+: p →
      (get_element_path_tokens root (some (p ++ [i])) (some a)).length
        = (get_element_path_tokens root (some p) (some a)).length + 1) :=
  ⟨get_element_path_self, get_element_path_tokens_step⟩

/-- Witness for C6 amended, on the tree `div > span`. -/
theorem c6_path_monotone_amended_witness :
    ((subtreeAt (.node (some "div") [.node (some "span") []]) [0]).isSome ∧
      get_element_path (.node (some "div") [.node (some "span") []])
        (some [0]) (some [0]) = "") ∧
    (subtreeAt (.node (some "div") [.node (some "span") []]) ([] ++ [0])
        = some (.node (some "span") []) ∧
      (Dom.node (some "span") []).name = some "span" ∧ "span" ≠ "" ∧
      ([] : List ℕ) <+: [] ∧
      (get_element_path_tokens (.node (some "div") [.node (some "span") []])
          (some ([] ++ [0])) (some [])).length
        = (get_element_path_tokens (.node (some "div") [.node (some "span") []])
          (some []) (some [])).length + 1) :=
  ⟨⟨rfl, c6_path_monotone_amended.1 (.node (some "div") [.node (some "span") []]) [0] rfl⟩,
   ⟨rfl, rfl, by decide, ⟨[], rfl⟩,
    c6_path_monotone_amended.2 (.node (some "div") [.node (some "span") []]) [] [] 0
      (.node (some "span") []) "span" rfl rfl (by decide) ⟨[], rfl⟩⟩⟩
